import Mathlib

/-!
Shallow embedding of the ALiBaVa event-analysis pipeline
(src/analysis_functions.py and src/analysis_classes/noise_analysis.py).

Numeric values are modelled by ℚ (the Python code uses numpy float64 /
float32; all claims are settled at inputs where the float computation is
exact).  Square roots (np.std, np.sqrt) are modelled by ratSqrt, which is
exact on perfect-square rationals and is only evaluated at such inputs in
the concrete theorems below; the cluster-acceptance comparison
sqrt(|s|) > cut is embedded through its square (see snClusterAccept and
the lemma snClusterAccept_correct relating it to Real.sqrt).
-/

set_option allowUnsafeReducibility true
attribute [local semireducible] Rat.sub Rat.add Rat.mul Rat.inv

namespace Alibava

/-- Integer square root by bounded search (structural recursion, so it
evaluates inside the kernel, unlike Nat.sqrt). -/
def natSqrt (n : ℕ) : ℕ := Nat.findGreatest (fun k => k * k ≤ n) n

/-- Exact rational square root: returns the square root when the
nonnegative argument is a perfect square of a rational, 0 otherwise
(mirrors np.sqrt / np.std on the exactly-representable inputs used in
this development). -/
def ratSqrt (q : ℚ) : ℚ :=
  if 0 ≤ q ∧ natSqrt q.num.toNat * natSqrt q.num.toNat = q.num.toNat
      ∧ natSqrt q.den * natSqrt q.den = q.den
  then (natSqrt q.num.toNat : ℚ) / (natSqrt q.den : ℚ)
  else 0

/-- np.mean of a vector (mean of the empty list is 0 in this total model;
numpy emits NaN plus a RuntimeWarning there, and no exception). -/
def meanQ (l : List ℚ) : ℚ := l.sum / l.length

/-- Population variance, the square of np.std (ddof = 0). -/
def varQ (l : List ℚ) : ℚ := (l.map (fun x => (x - meanQ l) ^ 2)).sum / l.length

/-- np.std modelled through ratSqrt. -/
def stdQ (l : List ℚ) : ℚ := ratSqrt (varQ l)

/-- Column c of an event matrix (events × channels); out-of-range reads
give 0 (all concrete inputs are rectangular). -/
def column (events : List (List ℚ)) (c : ℕ) : List ℚ :=
  events.map (fun e => e.getD c 0)

/-- np.mean(events, axis=0): per-channel arithmetic mean over all events
(src/analysis_classes/noise_analysis.py line 76 and
src/analysis_functions.py line 481). -/
def meanPerChannel (events : List (List ℚ)) (numchan : ℕ) : List ℚ :=
  (List.range numchan).map (fun c => meanQ (column events c))

/-- np.std(score, axis=0): per-channel standard deviation over events. -/
def stdPerChannel (score : List (List ℚ)) (numchan : ℕ) : List ℚ :=
  (List.range numchan).map (fun c => stdQ (column score c))

/-- One iteration of NoiseAnalysis.noise_calc
(src/analysis_classes/noise_analysis.py lines 139-152): subtract the
pedestal, subtract the per-event common-mode mean. -/
def cmResidual (pedestal e : List ℚ) : List ℚ :=
  let cm := List.zipWith (fun a b => a - b) e pedestal
  cm.map (fun x => x - meanQ cm)

/-- The residual matrix (score) returned by NoiseAnalysis.noise_calc.
The source loops over the good-timing events (here all events: the
pedestal file has time >= 0 throughout, line 63). -/
def noise_calc_score (events : List (List ℚ)) (pedestal : List ℚ) :
    List (List ℚ) :=
  events.map (cmResidual pedestal)

/-- Per-event common-mode mean CMN returned by noise_calc. -/
def noise_calc_CMN (events : List (List ℚ)) (pedestal : List ℚ) : List ℚ :=
  events.map (fun e => meanQ (List.zipWith (fun a b => a - b) e pedestal))

/-- Per-event common-mode spread CMsig returned by noise_calc. -/
def noise_calc_CMsig (events : List (List ℚ)) (pedestal : List ℚ) : List ℚ :=
  events.map (fun e => stdQ (List.zipWith (fun a b => a - b) e pedestal))

/-- Simple insertion sort used to model np.median. -/
def insertSorted (x : ℚ) : List ℚ → List ℚ
  | [] => [x]
  | y :: ys => if x ≤ y then x :: y :: ys else y :: insertSorted x ys

/-- Sorted copy of a list. -/
def sortQ (l : List ℚ) : List ℚ := l.foldr insertSorted []

/-- np.median: middle element of the sorted list, or the mean of the two
middle elements for even length (0 for the empty list). -/
def medianQ (l : List ℚ) : ℚ :=
  let s := sortQ l
  if l.length = 0 then 0
  else if l.length % 2 = 1 then s.getD (l.length / 2) 0
  else (s.getD (l.length / 2 - 1) 0 + s.getD (l.length / 2) 0) / 2

/-- NoiseAnalysis.detect_noisy_strips
(src/analysis_classes/noise_analysis.py lines 116-127):
high_noise_strips = nonzero(Noise > median + cut), np.append of the manual
mask (which may duplicate channels), good = np.delete(arange(n), those
positions).  np.delete removes each listed position once, duplicates in
the position list are harmless. -/
def detect_noisy_strips (mask : List ℕ) (noise : List ℚ) (cut : ℚ) :
    List ℕ × List ℕ :=
  let high := (List.range noise.length).filter
    (fun i => decide (medianQ noise + cut < noise.getD i 0))
  let noisy := high ++ mask
  let good := (List.range noise.length).filter (fun i => decide (i ∉ noisy))
  (noisy, good)

/-- Result of the NoiseAnalysis.__init__ two-pass noise protocol
(non-optimize branch, src/analysis_classes/noise_analysis.py
lines 80-96). -/
structure NoiseResult where
  pedestal : List ℚ
  noise : List ℚ
  noisy_strips : List ℕ
  good_strips : List ℕ
  score_pass2 : List (List ℚ)

/-- NoiseAnalysis.__init__ two-pass protocol: pedestal = per-channel
mean; pass 1 residuals over all channels; self.noise = np.std of the
pass-1 residuals (line 86); detect noisy strips; pass 2 recomputes the
residual matrix score_raw from events[:, good_strips] and
pedestal[good_strips] (lines 90-93).  self.noise is assigned once at
line 86 and never recomputed after pass 2 (the noise_corr line 89 is
commented out in the source). -/
def noiseAnalysis (signalData : List (List ℚ)) (numchan : ℕ)
    (noise_cut : ℚ) (mask : List ℕ) : NoiseResult :=
  let pedestal := meanPerChannel signalData numchan
  let score1 := noise_calc_score signalData pedestal
  let noise := stdPerChannel score1 numchan
  let nd := detect_noisy_strips mask noise noise_cut
  let signal2 := signalData.map (fun e => nd.2.map (fun c => e.getD c 0))
  let ped2 := nd.2.map (fun c => pedestal.getD c 0)
  let score2 := noise_calc_score signal2 ped2
  { pedestal := pedestal, noise := noise, noisy_strips := nd.1,
    good_strips := nd.2, score_pass2 := score2 }

/-- Outcome of the pedestal stage: the spec names an
InsufficientDataError, so the model's codomain can express an error,
but the Python body (np.mean at noise_analysis.py line 481 /
NoiseAnalysis line 76) contains no raise statement. -/
inductive PedResult where
  | ok : List ℚ → PedResult
  | error : String → PedResult
deriving DecidableEq

/-- Pedestal vector: np.mean(signal, axis=0) over all events with no
event filtering. -/
def pedestal_calc (events : List (List ℚ)) (numchan : ℕ) : List ℚ :=
  meanPerChannel events numchan

/-- The pedestal stage as executed: np.mean never raises — on an empty
batch it returns NaN per channel (RuntimeWarning only) and execution
continues, so every call returns ok. -/
def pedestal_run (events : List (List ℚ)) (numchan : ℕ) : PedResult :=
  PedResult.ok (pedestal_calc events numchan)

/-- Channel indices of the trimmed subset in event_analysis.process_event
(src/analysis_functions.py line 299): np.nonzero(signal < thr). -/
def trimmedIdx (signal : List ℚ) (thr : ℚ) : List ℕ :=
  (List.range signal.length).filter (fun i => decide (signal.getD i 0 < thr))

/-- event_analysis.process_event (src/analysis_functions.py
lines 292-310).  signal = event - pedestal; prosignal = the trimmed
values; the guard is numpy truthiness prosignal.any(), true iff some
trimmed entry is non-zero; in the true branch
SN = (signal - mean(prosignal)) / noise is an unguarded elementwise
division (zero noise entries produce inf/nan floats; total ℚ division
here). -/
def process_event (event pedestal : List ℚ) (meanCMN meanCMsig : ℚ)
    (noise : List ℚ) (numchan : ℕ) : List ℚ × List ℚ × ℚ × ℚ :=
  let signal := List.zipWith (fun a b => a - b) event pedestal
  let pros := (trimmedIdx signal (5 * meanCMsig + meanCMN)).map
    (fun i => signal.getD i 0)
  if pros.any (fun x => x != 0) then
    let cmpro := meanQ pros
    let sigpro := stdQ pros
    let corrsignal := signal.map (fun x => x - cmpro)
    let SN := List.zipWith (fun s n => s / n) corrsignal noise
    (corrsignal, SN, cmpro, sigpro)
  else
    (List.replicate numchan 0, List.replicate numchan 0, 0, 0)

/-- Outcome type for a process_event call, able to express the
DegenerateChannelError the spec names. -/
inductive ProcOutcome where
  | ok : List ℚ × List ℚ × ℚ × ℚ → ProcOutcome
  | raised : String → ProcOutcome
deriving DecidableEq

/-- process_event as executed: the Python body (lines 292-310) contains
no raise statement and no guard on the noise denominators, so every call
returns normally. -/
def process_event_run (event pedestal : List ℚ) (meanCMN meanCMsig : ℚ)
    (noise : List ℚ) (numchan : ℕ) : ProcOutcome :=
  ProcOutcome.ok (process_event event pedestal meanCMN meanCMsig noise numchan)

/-- The branch rule exactly as claim C5 words it (spec section 4.3): the
formula branch is taken iff the trimmed subset is NON-EMPTY; only the
empty subset yields the all-zero tuple.  Kept separate from
process_event, which follows the source, for the refinement
comparison. -/
def process_event_claim (event pedestal : List ℚ) (meanCMN meanCMsig : ℚ)
    (noise : List ℚ) (numchan : ℕ) : List ℚ × List ℚ × ℚ × ℚ :=
  let signal := List.zipWith (fun a b => a - b) event pedestal
  let pros := (trimmedIdx signal (5 * meanCMsig + meanCMN)).map
    (fun i => signal.getD i 0)
  if pros ≠ [] then
    let cmpro := meanQ pros
    let sigpro := stdQ pros
    let corrsignal := signal.map (fun x => x - cmpro)
    let SN := List.zipWith (fun s n => s / n) corrsignal noise
    (corrsignal, SN, cmpro, sigpro)
  else
    (List.replicate numchan 0, List.replicate numchan 0, 0, 0)

/-! Clustering (event_analysis.clustering, src/analysis_functions.py
lines 220-290). -/

/-- Configuration scalars read by event_analysis.clustering.  material
is true for the "n-in-p" sensor (self.material = 1), which rejects
positive signals under automasking. -/
structure ClusterParams where
  numchan : ℕ
  sn_cut : ℚ
  sn_ratio : ℚ
  sn_cluster : ℚ
  max_clustersize : ℕ
  masking : Bool
  material : Bool

/-- Neighbour threshold SN_cut * SN_ratio (lines 256, 260, 263, 267). -/
def neighborThreshold (p : ClusterParams) : ℚ := p.sn_cut * p.sn_ratio

/-- used_channels lookup: reads of the numpy zeros array; out-of-range
reads give false (the source never reads out of range: seeds come from
range(len(SN)) with len(SN) = numchan, neighbours are bounds-checked). -/
def usedAt (u : List Bool) (c : ℕ) : Bool := u.getD c false

/-- Membership in valid_ind (lines 223, 229, 235): with masking the
channels whose raw signal has the physical sign, otherwise all of
range(len(event)).  event.getD returns 0 out of range, so the sign tests
also enforce the range bound. -/
def validCh (p : ClusterParams) (event : List ℚ) (c : ℕ) : Bool :=
  if p.masking then
    (if p.material then decide (event.getD c 0 < 0)
     else decide (0 < event.getD c 0))
  else decide (c < event.length)

/-- Seed channels (line 222): np.nonzero(|SN| > SN_cut)[0]. -/
def seedChannels (p : ClusterParams) (SN : List ℚ) : List ℕ :=
  (List.range SN.length).filter (fun ch => decide (p.sn_cut < |SN.getD ch 0|))

/-- Automasking of the seed list (lines 225-238): with masking on, the
positions of channels whose signal has the non-physical sign are removed
with np.delete (keep = the complementary filter). -/
def postMaskChannels (p : ClusterParams) (event : List ℚ)
    (chs : List ℕ) : List ℕ :=
  if p.masking then
    if p.material then chs.filter (fun ch => decide (¬ 0 < event.getD ch 0))
    else chs.filter (fun ch => decide (¬ event.getD ch 0 < 0))
  else chs

/-- self.automasked_hit increment of one clustering call
(lines 230-232, 236-238): len(masked_ind). -/
def automaskedCount (p : ClusterParams) (event : List ℚ)
    (chs : List ℕ) : ℕ :=
  if p.masking then
    if p.material then (chs.filter (fun ch => decide (0 < event.getD ch 0))).length
    else (chs.filter (fun ch => decide (event.getD ch 0 < 0))).length
  else 0

/-- State of one cluster-growth scan (lines 246-268): used_channels,
the cluster under construction, its size counter and the two stop
flags. -/
structure GrowState where
  used : List Bool
  cluster : List ℕ
  size : ℕ
  rstop : Bool
  lstop : Bool

/-- Rightward step of iteration i (lines 256-261): add ch+i when its
|SN| beats the neighbour threshold, it is unused, in valid_ind and the
right scan is not stopped; else set right_stop when |SN| is strictly
below the threshold. -/
def stepRight (p : ClusterParams) (event SN : List ℚ) (ch i : ℕ)
    (s : GrowState) : GrowState :=
  if neighborThreshold p < |SN.getD (ch + i) 0| ∧ usedAt s.used (ch + i) = false
      ∧ validCh p event (ch + i) = true ∧ s.rstop = false then
    { s with used := s.used.set (ch + i) true,
             cluster := s.cluster ++ [ch + i], size := s.size + 1 }
  else if |SN.getD (ch + i) 0| < neighborThreshold p then
    { s with rstop := true }
  else s

/-- Leftward step of iteration i (lines 263-268), symmetric, with its
own stop flag. -/
def stepLeft (p : ClusterParams) (event SN : List ℚ) (ch i : ℕ)
    (s : GrowState) : GrowState :=
  if neighborThreshold p < |SN.getD (ch - i) 0| ∧ usedAt s.used (ch - i) = false
      ∧ validCh p event (ch - i) = true ∧ s.lstop = false then
    { s with used := s.used.set (ch - i) true,
             cluster := s.cluster ++ [ch - i], size := s.size + 1 }
  else if |SN.getD (ch - i) 0| < neighborThreshold p then
    { s with lstop := true }
  else s

/-- One iteration of the search loop (lines 254-268): both directions
are examined only when 0 < ch-i and ch+i < numchan, right before
left. -/
def growStep (p : ClusterParams) (event SN : List ℚ) (ch : ℕ)
    (s : GrowState) (i : ℕ) : GrowState :=
  if i < ch ∧ ch + i < p.numchan then
    stepLeft p event SN ch i (stepRight p event SN ch i s)
  else s

/-- The full search loop for i in range(1, offset+1) with
offset = int(max_clustersize * 0.5) (line 253). -/
def growLoop (p : ClusterParams) (event SN : List ℚ) (ch : ℕ)
    (s : GrowState) : GrowState :=
  (List.range' 1 (p.max_clustersize / 2)).foldl (growStep p event SN ch) s

/-- Sum of the raw signal over a candidate's members
(np.sum(np.take(event, cluster)), line 283). -/
def clusterSignalSum (event : List ℚ) (cluster : List ℕ) : ℚ :=
  (cluster.map (fun c => event.getD c 0)).sum

/-- The acceptance test np.sqrt(|s|) > SN_cluster (lines 283-284),
embedded through its square: for a nonnegative cut the comparison is
equivalent to cut^2 < |s| (Real.sqrt is monotone), and for a negative
cut it always holds; snClusterAccept_correct below proves the
equivalence with Real.sqrt. -/
def snClusterAccept (s cut : ℚ) : Bool :=
  if cut < 0 then true else decide (cut ^ 2 < |s|)

/-- One candidate cluster as scanned by the loop, with the ghost record
of whether the acceptance test passed. -/
structure Candidate where
  cluster : List ℕ
  size : ℕ
  accepted : Bool

/-- State of the outer loop over seed channels (lines 240-287).  cands
is a ghost trace of every candidate (accepted or rejected); the source
variables are used, clusters_list, numclus and clustersize. -/
structure ClusterState where
  used : List Bool
  clusters : List (List ℕ)
  numclus : ℕ
  sizes : List ℕ
  cands : List Candidate

/-- Growth start (lines 245-248): mark the seed used, open the cluster
[ch] with size 1 and cleared stop flags. -/
def initGrow (s : ClusterState) (ch : ℕ) : GrowState :=
  ⟨s.used.set ch true, [ch], 1, false, false⟩

/-- Body of the outer loop for one seed channel ch (lines 245-287):
skip if already used, otherwise grow the cluster, then run the
acceptance test; accepted clusters are appended to clusters_list,
numclus and clustersize; every candidate is recorded in the ghost
trace. -/
def clusterStep (p : ClusterParams) (event SN : List ℚ)
    (s : ClusterState) (ch : ℕ) : ClusterState :=
  if usedAt s.used ch = true then s
  else
    let g := growLoop p event SN ch (initGrow s ch)
    let pass := snClusterAccept (clusterSignalSum event g.cluster) p.sn_cluster
    { used := g.used,
      clusters := if pass then s.clusters ++ [g.cluster] else s.clusters,
      numclus := if pass then s.numclus + 1 else s.numclus,
      sizes := if pass then s.sizes ++ [g.size] else s.sizes,
      cands := s.cands ++ [⟨g.cluster, g.size, pass⟩] }

/-- event_analysis.clustering, full state after the loop over the
(post-automasking) seed channels. -/
def clusteringFull (p : ClusterParams) (event SN : List ℚ) : ClusterState :=
  (postMaskChannels p event (seedChannels p SN)).foldl
    (clusterStep p event SN)
    ⟨List.replicate p.numchan false, [], 0, [], []⟩

/-- The tuple returned by event_analysis.clustering (line 290):
(channels, clusters_list, numclus, clustersize); channels is the seed
list after automasking deletion. -/
def clustering (p : ClusterParams) (event SN : List ℚ) :
    List ℕ × List (List ℕ) × ℕ × List ℕ :=
  let full := clusteringFull p event SN
  (postMaskChannels p event (seedChannels p SN), full.clusters,
   full.numclus, full.sizes)

/-! Batch runner (event_analysis.do_analysis, src/analysis_functions.py
lines 153-218). -/

/-- Indices selected by the timing cut (line 157):
np.nonzero(timing > tmin)[0]. -/
def goodTimingIndices (timing : List ℚ) (tmin : ℚ) : List ℕ :=
  (List.range timing.length).filter (fun k => decide (tmin < timing.getD k 0))

/-- Indices of the raw events actually processed by the loop
(lines 168-170): for event in range(gtime[0].shape[0]) the body indexes
events[event] with the loop counter itself, so the first
len(gtime[0]) events are processed, whatever their timing. -/
def processedEventIndices (timing : List ℚ) (tmin : ℚ) : List ℕ :=
  List.range (goodTimingIndices timing tmin).length

/-- One hitmap update (lines 172-173): hitmap[ch] += 1 for every channel
of the event's returned seed list.  Writes to channels at or beyond
numchan are dropped (the source would raise IndexError; all seed
channels are below numchan). -/
def bumpHitmap (h : List ℚ) (chs : List ℕ) : List ℚ :=
  chs.foldl (fun acc c => acc.set c (acc.getD c 0 + 1)) h

/-- Contents of the single hitmap array allocated at line 162 after the
first n processed events registered their hits. -/
def hitmapAfter (numchan : ℕ) (hits : List (List ℕ)) (n : ℕ) : List ℚ :=
  (hits.take n).foldl bumpHitmap (List.replicate numchan 0)

/-- What outputdata["Hitmap"][k] holds once do_analysis has returned:
prodata.append at line 180 stores a reference to the one shared numpy
array, never a copy, so reading any event's entry after the batch yields
the array's final contents. -/
def storedHitmap (numchan : ℕ) (hits : List (List ℕ)) (k : ℕ) : List ℚ :=
  hitmapAfter numchan hits hits.length

/-- The per-event snapshot exactly as claim C4 words it: the hit
histogram accumulated through events 1..k+1 only.  Kept separate from
storedHitmap, which follows the source's aliasing, for the refinement
comparison. -/
def specSnapshotHitmap (numchan : ℕ) (hits : List (List ℕ)) (k : ℕ) : List ℚ :=
  hitmapAfter numchan hits (k + 1)

/-- The trimmed signal values (prosignal) computed inside
process_event, named for use in theorem statements. -/
def prosignalOf (event pedestal : List ℚ) (meanCMN meanCMsig : ℚ) : List ℚ :=
  let signal := List.zipWith (fun a b => a - b) event pedestal
  (trimmedIdx signal (5 * meanCMsig + meanCMN)).map (fun i => signal.getD i 0)

/-- Relation between a growth-scan state and any later state of the
same scan for seed ch: used only grows, the cluster is extended by
fresh (previously unused), valid, non-seed channels below numchan, the
new channels end up marked used, and the size counter advances with the
cluster length. -/
def GrowRel (p : ClusterParams) (event : List ℚ) (ch : ℕ)
    (s t : GrowState) : Prop :=
  t.used.length = s.used.length ∧
  (∀ c, usedAt s.used c = true → usedAt t.used c = true) ∧
  t.size + s.cluster.length = s.size + t.cluster.length ∧
  ∃ ext : List ℕ,
    t.cluster = s.cluster ++ ext ∧ ext.Nodup ∧
    ∀ a ∈ ext, usedAt s.used a = false ∧ usedAt t.used a = true ∧
      validCh p event a = true ∧ a ≠ ch ∧ a < p.numchan

/-- Invariant of the outer clustering loop, relative to the pool of
seed channels being folded over. -/
structure ClusterInv (p : ClusterParams) (event : List ℚ)
    (pool : List ℕ) (s : ClusterState) : Prop where
  usedLen : s.used.length = p.numchan
  memUsed : ∀ cd ∈ s.cands, ∀ x ∈ cd.cluster, usedAt s.used x = true
  disjoint : List.Pairwise
    (fun a b : Candidate => ∀ x ∈ a.cluster, x ∉ b.cluster) s.cands
  nodup : ∀ cd ∈ s.cands, cd.cluster.Nodup
  sizeEq : ∀ cd ∈ s.cands, cd.size = cd.cluster.length
  lower : ∀ cd ∈ s.cands, 1 ≤ cd.cluster.length
  upper : ∀ cd ∈ s.cands,
    cd.cluster.length ≤ 2 * (p.max_clustersize / 2) + 1
  acceptEq : ∀ cd ∈ s.cands,
    cd.accepted = snClusterAccept (clusterSignalSum event cd.cluster) p.sn_cluster
  memPool : ∀ cd ∈ s.cands, ∀ x ∈ cd.cluster,
    x ∈ pool ∨ validCh p event x = true
  clustersEq : s.clusters =
    (s.cands.filter (fun cd => cd.accepted)).map Candidate.cluster
  sizesEq : s.sizes =
    (s.cands.filter (fun cd => cd.accepted)).map Candidate.size
  numclusEq : s.numclus = (s.cands.filter (fun cd => cd.accepted)).length

/-! Supporting list lemmas. -/

theorem getD_set_same {α : Type} (l : List α) (a d : α) (n : ℕ)
    (h : n < l.length) : (l.set n a).getD n d = a := by
  rw [List.getD_eq_getElem _ _ (by simpa using h)]
  simp [List.getElem_set, h]

theorem getD_set_ne {α : Type} (l : List α) (a d : α) (m n : ℕ)
    (h : m ≠ n) : (l.set n a).getD m d = l.getD m d := by
  simp [List.getD_eq_getD_get?, List.get?_eq_getElem?,
    List.getElem?_set_ne (Ne.symm h)]

theorem usedAt_true_lt {u : List Bool} {c : ℕ} (h : usedAt u c = true) :
    c < u.length := by
  by_contra hc
  push_neg at hc
  rw [usedAt, List.getD_eq_default _ _ hc] at h
  exact Bool.false_ne_true h

theorem usedAt_set_self {u : List Bool} {a : ℕ} (h : a < u.length) :
    usedAt (u.set a true) a = true := by
  show (u.set a true).getD a false = true
  rw [getD_set_same _ _ _ _ h]

theorem usedAt_set_ne (u : List Bool) {a c : ℕ} (h : c ≠ a) :
    usedAt (u.set a true) c = usedAt u c := by
  show (u.set a true).getD c false = u.getD c false
  rw [getD_set_ne _ _ _ _ _ h]

theorem usedAt_set_mono {u : List Bool} {a c : ℕ}
    (h : usedAt u c = true) : usedAt (u.set a true) c = true := by
  by_cases hca : c = a
  · subst hca
    exact usedAt_set_self (usedAt_true_lt h)
  · rw [usedAt_set_ne u hca]; exact h

/-! C1 — the timing cut of the batch runner. -/

/-- C1: do_analysis does not process the events selected by the timing
cut.  With timing = [0, 5] and t_min = 0 the cut selects event 1 only,
but the loop (for event in range(len(gtime[0])), indexing events[event]
with the loop counter) processes raw event 0 — whose timing fails the
cut — and never processes event 1. -/
theorem do_analysis_timing_cut_bug :
    goodTimingIndices [0, 5] 0 = [1] ∧
    processedEventIndices [0, 5] 0 = [0] ∧
    processedEventIndices [0, 5] 0 ≠ goodTimingIndices [0, 5] 0 := by
  decide

/-! C2 — the two-pass noise protocol. -/

/-- C2 counterexample: for the 2-event, 3-channel batch
[[0,0,12],[0,0,0]] with Noise_cut = 1 and no manual mask, pass 1 yields
noise [2,2,4] and good strips [0,1]; the pass-2 residual std would be
[0,0] of length 2, but the noise field kept by NoiseAnalysis is still
the pass-1 vector [2,2,4] of length numchan = 3. -/
theorem noise_pass2_not_used_cex :
    (noiseAnalysis [[0, 0, 12], [0, 0, 0]] 3 1 []).noise = [2, 2, 4] ∧
    (noiseAnalysis [[0, 0, 12], [0, 0, 0]] 3 1 []).good_strips = [0, 1] ∧
    stdPerChannel (noiseAnalysis [[0, 0, 12], [0, 0, 0]] 3 1 []).score_pass2 2
      = [0, 0] ∧
    (noiseAnalysis [[0, 0, 12], [0, 0, 0]] 3 1 []).noise.length ≠
      (noiseAnalysis [[0, 0, 12], [0, 0, 0]] 3 1 []).good_strips.length := by
  decide

/-- C2 amended: after the two-pass protocol the noise vector used
downstream is the standard deviation of the PASS-1 residuals over all
channels and has length numchan; pass 2 only recomputes the residual
matrix (score_raw), never the noise (line 86 is its only assignment, the
noise_corr recomputation at line 89 is commented out). -/
theorem noise_final_is_pass1 (signalData : List (List ℚ)) (numchan : ℕ)
    (noise_cut : ℚ) (mask : List ℕ) :
    (noiseAnalysis signalData numchan noise_cut mask).noise =
      stdPerChannel
        (noise_calc_score signalData (meanPerChannel signalData numchan))
        numchan ∧
    (noiseAnalysis signalData numchan noise_cut mask).noise.length = numchan := by
  refine ⟨rfl, ?_⟩
  simp [noiseAnalysis, stdPerChannel]

/-! C3 — zero noise entries in process_event. -/

/-- C3 counterexample: with noise = [0, 1] (a zero entry) and a
non-empty trimmed subset, process_event returns normally — performing
the unguarded division — instead of failing with
DegenerateChannelError. -/
theorem process_event_zero_noise_no_error_cex :
    (0 : ℚ) ∈ [(0 : ℚ), 1] ∧
    process_event_run [12, 10] [0, 0] 100 0 [0, 1] 2 =
      ProcOutcome.ok ([1, -1], [0, -1], 11, 1) ∧
    process_event_run [12, 10] [0, 0] 100 0 [0, 1] 2 ≠
      ProcOutcome.raised "DegenerateChannelError" := by
  decide

/-- C3 amended: process_event never signals an error: even when the
noise profile contains a zero entry the call returns normally, with the
S/N vector produced by the unguarded elementwise division (IEEE inf/nan
floats in the source, which flow on to clustering; total division in the
ℚ model). -/
theorem process_event_total_division (event pedestal : List ℚ)
    (meanCMN meanCMsig : ℚ) (noise : List ℚ) (numchan : ℕ)
    (_hz : (0 : ℚ) ∈ noise) :
    process_event_run event pedestal meanCMN meanCMsig noise numchan =
      ProcOutcome.ok
        (process_event event pedestal meanCMN meanCMsig noise numchan) := rfl

/-- Witness for process_event_total_division at noise = [0]. -/
theorem process_event_total_division_witness :
    (0 : ℚ) ∈ [(0 : ℚ)] ∧
    process_event_run [1] [0] 5 0 [0] 1 =
      ProcOutcome.ok (process_event [1] [0] 5 0 [0] 1) :=
  ⟨by decide, process_event_total_division [1] [0] 5 0 [0] 1 (by decide)⟩

/-! C5 — the branch condition of process_event. -/

/-- C5 counterexample: event [0, 10], pedestal [0, 0], mean CMN 5,
mean CMsig 0: the trimmed subset is the non-empty [channel 0] but its
only value is 0, so prosignal.any() is false and the code returns the
all-zero tuple, while the claim's formula branch (process_event_claim)
returns corrected signal [0, 10]. -/
theorem process_event_any_branch_cex :
    trimmedIdx (List.zipWith (fun a b => a - b) [0, 10] [0, 0]) (5 * 0 + 5)
      = [0] ∧
    process_event [0, 10] [0, 0] 5 0 [1, 1] 2 = ([0, 0], [0, 0], 0, 0) ∧
    process_event [0, 10] [0, 0] 5 0 [1, 1] 2 ≠
      process_event_claim [0, 10] [0, 0] 5 0 [1, 1] 2 := by
  decide

/-- C5 amended: the trimmed subset is exactly the channels with
signal < 5*mean_cmsig + mean_cmn; the formula branch is taken iff some
trimmed value is NON-ZERO (numpy truthiness of prosignal.any()), in
which case the claimed tuple is returned; whenever every trimmed value
is zero — including the non-empty all-zero subset — the all-zero tuple
is returned. -/
theorem process_event_branch_rule (event pedestal : List ℚ)
    (meanCMN meanCMsig : ℚ) (noise : List ℚ) (numchan : ℕ) :
    ((∃ x ∈ prosignalOf event pedestal meanCMN meanCMsig, x ≠ 0) →
       process_event event pedestal meanCMN meanCMsig noise numchan =
         process_event_claim event pedestal meanCMN meanCMsig noise numchan) ∧
    ((∀ x ∈ prosignalOf event pedestal meanCMN meanCMsig, x = 0) →
       process_event event pedestal meanCMN meanCMsig noise numchan =
         (List.replicate numchan 0, List.replicate numchan 0, 0, 0)) ∧
    (∀ i, i ∈ trimmedIdx (List.zipWith (fun a b => a - b) event pedestal)
            (5 * meanCMsig + meanCMN) ↔
        i < (List.zipWith (fun a b => a - b) event pedestal).length ∧
          (List.zipWith (fun a b => a - b) event pedestal).getD i 0
            < 5 * meanCMsig + meanCMN) := by
  refine ⟨?_, ?_, ?_⟩
  · intro h
    obtain ⟨x, hx, hx0⟩ := h
    have hany : (prosignalOf event pedestal meanCMN meanCMsig).any
        (fun x => x != 0) = true := by
      rw [List.any_eq_true]
      exact ⟨x, hx, by simpa using hx0⟩
    have hne : prosignalOf event pedestal meanCMN meanCMsig ≠ [] := by
      intro hcon
      rw [hcon] at hx
      exact List.not_mem_nil x hx
    rw [process_event, process_event_claim]
    rw [prosignalOf] at hany hne
    simp only [hany, if_true]
    rw [if_pos hne]
  · intro h
    have hany : (prosignalOf event pedestal meanCMN meanCMsig).any
        (fun x => x != 0) = false := by
      rw [Bool.eq_false_iff]
      intro hcon
      rw [List.any_eq_true] at hcon
      obtain ⟨x, hx, hx0⟩ := hcon
      exact (by simpa using hx0 : x ≠ 0) (h x hx)
    rw [process_event]
    rw [prosignalOf] at hany
    simp only [hany]
    simp
  · intro i
    simp [trimmedIdx, List.mem_filter, List.mem_range]

/-- Witness for process_event_branch_rule: a trimmed subset with the
non-zero value 1 takes the formula branch. -/
theorem process_event_branch_rule_witness :
    process_event [1, 10] [0, 0] 5 0 [1, 1] 2 =
      process_event_claim [1, 10] [0, 0] 5 0 [1, 1] 2 :=
  (process_event_branch_rule [1, 10] [0, 0] 5 0 [1, 1] 2).1 (by decide)

/-! C6 — the pedestal estimator. -/

/-- C6 counterexample: on the empty event batch the pedestal stage
returns normally (np.mean yields NaN per channel with only a
RuntimeWarning) instead of failing with InsufficientDataError. -/
theorem pedestal_empty_no_error_cex :
    pedestal_run ([] : List (List ℚ)) 4 = PedResult.ok [0, 0, 0, 0] ∧
    pedestal_run ([] : List (List ℚ)) 4 ≠
      PedResult.error "InsufficientDataError" := by
  decide

/-- C6 amended: the pedestal estimator returns, for every batch, the
numchan-length vector of per-channel arithmetic means over ALL events
(no event filtering); on the empty batch it still returns normally — no
InsufficientDataError is raised (the error type does not exist in the
source). -/
theorem pedestal_mean_total (events : List (List ℚ)) (numchan : ℕ) :
    pedestal_run events numchan = PedResult.ok (pedestal_calc events numchan) ∧
    (pedestal_calc events numchan).length = numchan ∧
    ∀ c, c < numchan →
      (pedestal_calc events numchan).getD c 0 =
        (events.map (fun e => e.getD c 0)).sum / events.length := by
  refine ⟨rfl, by simp [pedestal_calc, meanPerChannel], ?_⟩
  intro c hc
  rw [pedestal_calc, meanPerChannel,
    List.getD_eq_getElem _ _ (by simpa using hc)]
  simp [meanQ, column]

/-- Witness for pedestal_mean_total at the 3-event, 4-channel batch of
spec section 8. -/
theorem pedestal_mean_total_witness :
    (pedestal_calc [[100, 100, 100, 100], [102, 98, 101, 99],
        [99, 101, 99, 101]] 4).getD 0 0 =
      (([[100, 100, 100, 100], [102, 98, 101, 99],
        [99, 101, 99, 101]] : List (List ℚ)).map (fun e => e.getD 0 0)).sum /
        ([[100, 100, 100, 100], [102, 98, 101, 99],
        [99, 101, 99, 101]] : List (List ℚ)).length :=
  (pedestal_mean_total _ 4).2.2 0 (by decide)

/-! C8 — detect_noisy_strips. -/

/-- C8 counterexample: noise [0,0,0,10] with cut 5 marks channel 3 high
noise; the manual mask [3] overlaps it, so np.append yields the noisy
array [3,3] with a duplicate: |good| + |noisy| = 3 + 2 = 5, not
numchan = 4. -/
theorem detect_noisy_strips_overlap_cex :
    (detect_noisy_strips [3] [0, 0, 0, 10] 5).1 = [3, 3] ∧
    (detect_noisy_strips [3] [0, 0, 0, 10] 5).2 = [0, 1, 2] ∧
    (detect_noisy_strips [3] [0, 0, 0, 10] 5).2.length +
      (detect_noisy_strips [3] [0, 0, 0, 10] 5).1.length ≠ 4 := by
  decide

/-- Counting helper: for a list of indices below n, the channels of
range n not in the list together with the distinct listed channels
account for all n channels. -/
theorem filter_not_mem_length (n : ℕ) (L : List ℕ)
    (hL : ∀ x ∈ L, x < n) :
    ((List.range n).filter (fun i => decide (i ∉ L))).length +
      L.dedup.length = n := by
  have hlen := List.length_eq_length_filter_add
    (l := List.range n) (fun i => decide (i ∈ L))
  rw [List.length_range] at hlen
  simp only [← decide_not] at hlen
  have h2 : ((List.range n).filter (fun i => decide (i ∈ L))).length =
      L.dedup.length := by
    have hperm : List.Perm ((List.range n).filter (fun i => decide (i ∈ L)))
        L.dedup := by
      rw [List.perm_ext_iff_of_nodup
        (List.Nodup.filter _ (List.nodup_range n)) (List.nodup_dedup L)]
      intro a
      simp only [List.mem_filter, List.mem_range, decide_eq_true_eq,
        List.mem_dedup]
      exact ⟨fun h => h.2, fun h => ⟨hL a h, h⟩⟩
    exact hperm.length_eq
  rw [h2] at hlen
  omega

/-- C8 amended: the two returned arrays cover every channel index and
are disjoint, and |good| plus the number of DISTINCT noisy entries
equals numchan; when a manually masked channel also exceeds
median + cut it appears twice in the noisy array, so the raw lengths
can sum to more than numchan. -/
theorem detect_noisy_strips_partition (mask : List ℕ) (noise : List ℚ)
    (cut : ℚ) (hmask : ∀ m ∈ mask, m < noise.length) :
    (∀ c, c < noise.length →
        c ∈ (detect_noisy_strips mask noise cut).1 ∨
        c ∈ (detect_noisy_strips mask noise cut).2) ∧
    (∀ c, c ∈ (detect_noisy_strips mask noise cut).1 →
        c ∉ (detect_noisy_strips mask noise cut).2) ∧
    (detect_noisy_strips mask noise cut).2.length +
      (detect_noisy_strips mask noise cut).1.dedup.length = noise.length := by
  have hgood : ∀ c, c ∈ (detect_noisy_strips mask noise cut).2 ↔
      c < noise.length ∧ c ∉ (detect_noisy_strips mask noise cut).1 := by
    intro c
    show c ∈ (List.range noise.length).filter
        (fun i => decide (i ∉ (detect_noisy_strips mask noise cut).1)) ↔ _
    simp [List.mem_filter, List.mem_range]
  have hsub : ∀ x ∈ (detect_noisy_strips mask noise cut).1,
      x < noise.length := by
    intro x hx
    rcases List.mem_append.mp hx with h | h
    · exact List.mem_range.mp (List.mem_filter.mp h).1
    · exact hmask x h
  refine ⟨?_, ?_, ?_⟩
  · intro c hc
    by_cases hmem : c ∈ (detect_noisy_strips mask noise cut).1
    · exact Or.inl hmem
    · exact Or.inr ((hgood c).mpr ⟨hc, hmem⟩)
  · intro c hnoisy hgoodmem
    exact ((hgood c).mp hgoodmem).2 hnoisy
  · exact filter_not_mem_length noise.length
      (detect_noisy_strips mask noise cut).1 hsub

/-- Witness for detect_noisy_strips_partition at the overlapping-mask
input. -/
theorem detect_noisy_strips_partition_witness :
    (detect_noisy_strips [3] [0, 0, 0, 10] 5).2.length +
      (detect_noisy_strips [3] [0, 0, 0, 10] 5).1.dedup.length = 4 :=
  (detect_noisy_strips_partition [3] [0, 0, 0, 10] 5 (by decide)).2.2

/-! C4 — the per-event hitmap snapshots. -/

theorem bumpHitmap_length (h : List ℚ) (chs : List ℕ) :
    (bumpHitmap h chs).length = h.length := by
  induction chs generalizing h with
  | nil => rfl
  | cons a as ih =>
    show (bumpHitmap (h.set a (h.getD a 0 + 1)) as).length = h.length
    rw [ih, List.length_set]

theorem bumpHitmap_getD (chs : List ℕ) (h : List ℚ) (c : ℕ)
    (hc : c < h.length) :
    (bumpHitmap h chs).getD c 0 = h.getD c 0 + (chs.count c : ℚ) := by
  induction chs generalizing h with
  | nil => simp [bumpHitmap]
  | cons a as ih =>
    show (bumpHitmap (h.set a (h.getD a 0 + 1)) as).getD c 0 = _
    by_cases hac : a = c
    · subst hac
      rw [ih _ (by rw [List.length_set]; exact hc),
        getD_set_same _ _ _ _ hc]
      simp [List.count_cons]
      push_cast
      ring
    · rw [ih _ (by rw [List.length_set]; exact hc),
        getD_set_ne _ _ _ _ _ (fun hce => hac hce.symm)]
      simp [List.count_cons, hac]

theorem foldl_bumpHitmap_getD (hs : List (List ℕ)) (h : List ℚ) (c : ℕ)
    (hc : c < h.length) :
    (hs.foldl bumpHitmap h).getD c 0 =
      h.getD c 0 + (((hs.map (fun l => l.count c)).sum : ℕ) : ℚ) := by
  induction hs generalizing h with
  | nil => simp
  | cons l ls ih =>
    show (ls.foldl bumpHitmap (bumpHitmap h l)).getD c 0 = _
    rw [ih _ (by rw [bumpHitmap_length]; exact hc),
      bumpHitmap_getD _ _ _ hc, List.map_cons, List.sum_cons]
    push_cast
    ring

/-- C4 counterexample: two processed events hitting channels 0 and 1
respectively: the snapshot the claim promises for event 1 is [1, 0],
but the stored entry — a reference to the single shared array — reads
[1, 1] after the batch: event 2 mutated event 1's retained snapshot. -/
theorem hitmap_snapshot_aliased_cex :
    specSnapshotHitmap 2 [[0], [1]] 0 = [1, 0] ∧
    storedHitmap 2 [[0], [1]] 0 = [1, 1] ∧
    storedHitmap 2 [[0], [1]] 0 ≠ specSnapshotHitmap 2 [[0], [1]] 0 := by
  decide

/-- C4 amended: every per-event stored hitmap entry aliases the one
shared array, so after the batch each event's retained hitmap equals
the cumulative histogram over ALL processed events — channel c's value
is the total occurrence count of c across every processed event's
returned seed list — rather than the prefix through that event. -/
theorem hitmap_stored_cumulative (numchan : ℕ) (hits : List (List ℕ))
    (k c : ℕ) (hc : c < numchan) :
    (storedHitmap numchan hits k).getD c 0 =
      (((hits.map (fun l => l.count c)).sum : ℕ) : ℚ) := by
  rw [storedHitmap, hitmapAfter, List.take_length]
  rw [foldl_bumpHitmap_getD _ _ _ (by rw [List.length_replicate]; exact hc)]
  rw [List.getD_eq_getElem _ _ (by rw [List.length_replicate]; exact hc)]
  simp

/-- Witness for hitmap_stored_cumulative: event 1's stored hitmap entry
for channel 0 counts the hits of the whole batch. -/
theorem hitmap_stored_cumulative_witness :
    (storedHitmap 2 [[0], [0, 1]] 0).getD 0 0 =
      ((([[0], [0, 1]] : List (List ℕ)).map (fun l => l.count 0)).sum : ℕ) :=
  hitmap_stored_cumulative 2 [[0], [0, 1]] 0 0 (by decide)

/-! Clustering: growth-scan lemmas. -/

theorem growRel_refl (p : ClusterParams) (event : List ℚ) (ch : ℕ)
    (s : GrowState) : GrowRel p event ch s s :=
  ⟨rfl, fun _ h => h, rfl, [], (List.append_nil _).symm, List.nodup_nil,
    fun a ha => absurd ha (List.not_mem_nil a)⟩

theorem growRel_trans {p : ClusterParams} {event : List ℚ} {ch : ℕ}
    {s t u : GrowState} (h1 : GrowRel p event ch s t)
    (h2 : GrowRel p event ch t u) : GrowRel p event ch s u := by
  obtain ⟨hl1, hm1, hs1, ext1, hc1, hn1, hp1⟩ := h1
  obtain ⟨hl2, hm2, hs2, ext2, hc2, hn2, hp2⟩ := h2
  have hfresh : ∀ a ∈ ext2, usedAt s.used a = false := by
    intro a ha
    cases hsa : usedAt s.used a with
    | false => rfl
    | true => exact absurd ((hp2 a ha).1) (by rw [hm1 a hsa]; simp)
  refine ⟨hl2.trans hl1, fun c h => hm2 c (hm1 c h), ?_, ext1 ++ ext2,
    ?_, ?_, ?_⟩
  · omega
  · rw [hc2, hc1, List.append_assoc]
  · refine List.Nodup.append hn1 hn2 ?_
    intro a ha1 ha2
    have h1u : usedAt t.used a = true := (hp1 a ha1).2.1
    have h2u : usedAt t.used a = false := (hp2 a ha2).1
    rw [h1u] at h2u
    exact Bool.noConfusion h2u
  · intro a ha
    rcases List.mem_append.mp ha with h | h
    · obtain ⟨f1, t1, v1, ne1, lt1⟩ := hp1 a h
      exact ⟨f1, hm2 a t1, v1, ne1, lt1⟩
    · obtain ⟨_, t2, v2, ne2, lt2⟩ := hp2 a h
      exact ⟨hfresh a h, t2, v2, ne2, lt2⟩

theorem stepRight_rel (p : ClusterParams) (event SN : List ℚ) (ch i : ℕ)
    (hi : 1 ≤ i) (hbound : ch + i < p.numchan) (s : GrowState)
    (hlen : s.used.length = p.numchan) :
    GrowRel p event ch s (stepRight p event SN ch i s) ∧
    (stepRight p event SN ch i s).cluster.length ≤ s.cluster.length + 1 := by
  rw [stepRight]
  split_ifs with h1 h2
  · obtain ⟨hthr, hun, hval, hrs⟩ := h1
    refine ⟨⟨List.length_set _ _ _, fun c hc => usedAt_set_mono hc, ?_,
      [ch + i], rfl, List.nodup_singleton _, ?_⟩, ?_⟩
    · simp only [List.length_append, List.length_singleton]
      omega
    · intro a ha
      rw [List.mem_singleton] at ha
      subst ha
      exact ⟨hun, usedAt_set_self (by rw [hlen]; exact hbound), hval,
        by omega, hbound⟩
    · simp
  · exact ⟨⟨rfl, fun _ h => h, rfl, [], (List.append_nil _).symm,
      List.nodup_nil, fun a ha => absurd ha (List.not_mem_nil a)⟩, by simp⟩
  · exact ⟨growRel_refl p event ch s, by simp⟩

theorem stepLeft_rel (p : ClusterParams) (event SN : List ℚ) (ch i : ℕ)
    (hi : 1 ≤ i) (hich : i < ch) (hbound : ch + i < p.numchan)
    (s : GrowState) (hlen : s.used.length = p.numchan) :
    GrowRel p event ch s (stepLeft p event SN ch i s) ∧
    (stepLeft p event SN ch i s).cluster.length ≤ s.cluster.length + 1 := by
  rw [stepLeft]
  split_ifs with h1 h2
  · obtain ⟨hthr, hun, hval, hls⟩ := h1
    refine ⟨⟨List.length_set _ _ _, fun c hc => usedAt_set_mono hc, ?_,
      [ch - i], rfl, List.nodup_singleton _, ?_⟩, ?_⟩
    · simp only [List.length_append, List.length_singleton]
      omega
    · intro a ha
      rw [List.mem_singleton] at ha
      subst ha
      exact ⟨hun, usedAt_set_self (by rw [hlen]; omega), hval,
        by omega, by omega⟩
    · simp
  · exact ⟨⟨rfl, fun _ h => h, rfl, [], (List.append_nil _).symm,
      List.nodup_nil, fun a ha => absurd ha (List.not_mem_nil a)⟩, by simp⟩
  · exact ⟨growRel_refl p event ch s, by simp⟩

theorem growStep_rel (p : ClusterParams) (event SN : List ℚ) (ch i : ℕ)
    (hi : 1 ≤ i) (s : GrowState) (hlen : s.used.length = p.numchan) :
    GrowRel p event ch s (growStep p event SN ch s i) ∧
    (growStep p event SN ch s i).cluster.length ≤ s.cluster.length + 2 := by
  rw [growStep]
  split_ifs with hb
  · obtain ⟨hich, hbound⟩ := hb
    obtain ⟨hr1, hr2⟩ := stepRight_rel p event SN ch i hi hbound s hlen
    have hlen2 : (stepRight p event SN ch i s).used.length = p.numchan := by
      rw [hr1.1, hlen]
    obtain ⟨hl1, hl2⟩ := stepLeft_rel p event SN ch i hi hich hbound _ hlen2
    exact ⟨growRel_trans hr1 hl1, by omega⟩
  · exact ⟨growRel_refl p event ch s, by omega⟩

theorem foldl_growStep_rel (p : ClusterParams) (event SN : List ℚ)
    (ch : ℕ) :
    ∀ (l : List ℕ) (s : GrowState), (∀ i ∈ l, 1 ≤ i) →
      s.used.length = p.numchan →
      GrowRel p event ch s (l.foldl (growStep p event SN ch) s) ∧
      (l.foldl (growStep p event SN ch) s).cluster.length ≤
        s.cluster.length + 2 * l.length := by
  intro l
  induction l with
  | nil =>
    intro s _ _
    exact ⟨growRel_refl p event ch s, by simp⟩
  | cons i l ih =>
    intro s hpos hlen
    have h1 := growStep_rel p event SN ch i (hpos i (by simp)) s hlen
    have hlen2 : (growStep p event SN ch s i).used.length = p.numchan := by
      rw [h1.1.1, hlen]
    have h2 := ih (growStep p event SN ch s i)
      (fun j hj => hpos j (by simp [hj])) hlen2
    refine ⟨growRel_trans h1.1 h2.1, ?_⟩
    have hb1 := h1.2
    have hb2 := h2.2
    show ((i :: l).foldl (growStep p event SN ch) s).cluster.length ≤
      s.cluster.length + 2 * (i :: l).length
    rw [List.foldl_cons, List.length_cons]
    omega

theorem growLoop_rel (p : ClusterParams) (event SN : List ℚ) (ch : ℕ)
    (s : GrowState) (hlen : s.used.length = p.numchan) :
    GrowRel p event ch s (growLoop p event SN ch s) ∧
    (growLoop p event SN ch s).cluster.length ≤
      s.cluster.length + 2 * (p.max_clustersize / 2) := by
  have hpos : ∀ i ∈ List.range' 1 (p.max_clustersize / 2), 1 ≤ i := by
    intro i hi
    obtain ⟨j, _, rfl⟩ := List.mem_range'.mp hi
    omega
  have h := foldl_growStep_rel p event SN ch
    (List.range' 1 (p.max_clustersize / 2)) s hpos hlen
  rw [growLoop]
  rw [List.length_range'] at h
  exact h

/-! Clustering: outer-loop invariant. -/

theorem postMask_mem {p : ClusterParams} {event : List ℚ} {chs : List ℕ}
    {c : ℕ} (h : c ∈ postMaskChannels p event chs) : c ∈ chs := by
  rw [postMaskChannels] at h
  split_ifs at h with h1 h2
  · exact (List.mem_filter.mp h).1
  · exact (List.mem_filter.mp h).1
  · exact h

theorem seedChannels_lt {p : ClusterParams} {SN : List ℚ} {c : ℕ}
    (h : c ∈ seedChannels p SN) : c < SN.length :=
  List.mem_range.mp (List.mem_filter.mp h).1

theorem clusterStep_eq_of_unused (p : ClusterParams) (event SN : List ℚ)
    (s : ClusterState) (ch : ℕ) (h : usedAt s.used ch = false) :
    clusterStep p event SN s ch =
      { used := (growLoop p event SN ch (initGrow s ch)).used,
        clusters := if snClusterAccept
            (clusterSignalSum event (growLoop p event SN ch (initGrow s ch)).cluster)
            p.sn_cluster
          then s.clusters ++ [(growLoop p event SN ch (initGrow s ch)).cluster]
          else s.clusters,
        numclus := if snClusterAccept
            (clusterSignalSum event (growLoop p event SN ch (initGrow s ch)).cluster)
            p.sn_cluster
          then s.numclus + 1 else s.numclus,
        sizes := if snClusterAccept
            (clusterSignalSum event (growLoop p event SN ch (initGrow s ch)).cluster)
            p.sn_cluster
          then s.sizes ++ [(growLoop p event SN ch (initGrow s ch)).size]
          else s.sizes,
        cands := s.cands ++
          [⟨(growLoop p event SN ch (initGrow s ch)).cluster,
            (growLoop p event SN ch (initGrow s ch)).size,
            snClusterAccept
              (clusterSignalSum event (growLoop p event SN ch (initGrow s ch)).cluster)
              p.sn_cluster⟩] } := by
  rw [clusterStep, if_neg (by simp [h])]

theorem clusterStep_inv (p : ClusterParams) (event SN : List ℚ)
    (pool : List ℕ) (s : ClusterState) (ch : ℕ)
    (hinv : ClusterInv p event pool s) (hch : ch < p.numchan)
    (hpool : ch ∈ pool) :
    ClusterInv p event pool (clusterStep p event SN s ch) := by
  by_cases hused : usedAt s.used ch = true
  · rw [clusterStep, if_pos hused]
    exact hinv
  · rw [Bool.not_eq_true] at hused
    rw [clusterStep_eq_of_unused p event SN s ch hused]
    have hchlen : ch < s.used.length := by rw [hinv.usedLen]; exact hch
    have hg0 : (initGrow s ch).used.length = p.numchan := by
      show (s.used.set ch true).length = p.numchan
      rw [List.length_set, hinv.usedLen]
    obtain ⟨grel, gbound⟩ := growLoop_rel p event SN ch (initGrow s ch) hg0
    obtain ⟨glen, gmono, gsize, ext, gclu, gnodup, gprops⟩ := grel
    have hig : (initGrow s ch).used = s.used.set ch true := rfl
    set g := growLoop p event SN ch (initGrow s ch) with hgdef
    have hclu : g.cluster = ch :: ext := by rw [gclu]; rfl
    have husedch : usedAt g.used ch = true := by
      apply gmono
      rw [hig]
      exact usedAt_set_self hchlen
    have hmonos : ∀ c, usedAt s.used c = true → usedAt g.used c = true := by
      intro c hc
      apply gmono
      rw [hig]
      exact usedAt_set_mono hc
    have hnewmem : ∀ x ∈ g.cluster, usedAt g.used x = true := by
      intro x hx
      rw [hclu] at hx
      rcases List.mem_cons.mp hx with rfl | hx
      · exact husedch
      · exact (gprops x hx).2.1
    have holdnotnew : ∀ cd ∈ s.cands, ∀ x ∈ cd.cluster, x ∉ g.cluster := by
      intro cd hcd x hx hxg
      have hxs : usedAt s.used x = true := hinv.memUsed cd hcd x hx
      rw [hclu] at hxg
      rcases List.mem_cons.mp hxg with rfl | hxg
      · rw [hused] at hxs
        exact Bool.noConfusion hxs
      · have hxf := (gprops x hxg).1
        rw [hig] at hxf
        rw [usedAt_set_mono hxs] at hxf
        exact Bool.noConfusion hxf
    have hsizeg : g.size = g.cluster.length := by
      have h1 : (initGrow s ch).cluster = [ch] := rfl
      have h2 : (initGrow s ch).size = 1 := rfl
      rw [h1, h2] at gsize
      simp only [List.length_singleton] at gsize
      omega
    have hnodupnew : g.cluster.Nodup := by
      rw [hclu]
      exact List.nodup_cons.mpr
        ⟨fun hmem => (gprops ch hmem).2.2.2.1 rfl, gnodup⟩
    have hlower : 1 ≤ g.cluster.length := by rw [hclu]; simp
    have hupper : g.cluster.length ≤ 2 * (p.max_clustersize / 2) + 1 := by
      have h1 : (initGrow s ch).cluster.length = 1 := rfl
      omega
    have hpoolnew : ∀ x ∈ g.cluster,
        x ∈ pool ∨ validCh p event x = true := by
      intro x hx
      rw [hclu] at hx
      rcases List.mem_cons.mp hx with rfl | hx
      · exact Or.inl hpool
      · exact Or.inr (gprops x hx).2.2.1
    constructor
    · show g.used.length = p.numchan
      rw [glen, hg0]
    · intro cd hcd x hx
      rcases List.mem_append.mp hcd with hcd | hcd
      · exact hmonos x (hinv.memUsed cd hcd x hx)
      · rw [List.mem_singleton] at hcd
        subst hcd
        exact hnewmem x hx
    · refine List.pairwise_append.mpr
        ⟨hinv.disjoint, List.pairwise_singleton _ _, ?_⟩
      intro a ha b hb x hx
      rw [List.mem_singleton] at hb
      subst hb
      exact holdnotnew a ha x hx
    · intro cd hcd
      rcases List.mem_append.mp hcd with hcd | hcd
      · exact hinv.nodup cd hcd
      · rw [List.mem_singleton] at hcd
        subst hcd
        exact hnodupnew
    · intro cd hcd
      rcases List.mem_append.mp hcd with hcd | hcd
      · exact hinv.sizeEq cd hcd
      · rw [List.mem_singleton] at hcd
        subst hcd
        exact hsizeg
    · intro cd hcd
      rcases List.mem_append.mp hcd with hcd | hcd
      · exact hinv.lower cd hcd
      · rw [List.mem_singleton] at hcd
        subst hcd
        exact hlower
    · intro cd hcd
      rcases List.mem_append.mp hcd with hcd | hcd
      · exact hinv.upper cd hcd
      · rw [List.mem_singleton] at hcd
        subst hcd
        exact hupper
    · intro cd hcd
      rcases List.mem_append.mp hcd with hcd | hcd
      · exact hinv.acceptEq cd hcd
      · rw [List.mem_singleton] at hcd
        subst hcd
        rfl
    · intro cd hcd x hx
      rcases List.mem_append.mp hcd with hcd | hcd
      · exact hinv.memPool cd hcd x hx
      · rw [List.mem_singleton] at hcd
        subst hcd
        exact hpoolnew x hx
    · show (if snClusterAccept (clusterSignalSum event g.cluster) p.sn_cluster
          then s.clusters ++ [g.cluster] else s.clusters) = _
      rw [List.filter_append, List.map_append, hinv.clustersEq,
        List.filter_singleton]
      by_cases hpass : snClusterAccept (clusterSignalSum event g.cluster)
          p.sn_cluster = true
      · simp [hpass]
      · rw [Bool.not_eq_true] at hpass
        simp [hpass]
    · show (if snClusterAccept (clusterSignalSum event g.cluster) p.sn_cluster
          then s.sizes ++ [g.size] else s.sizes) = _
      rw [List.filter_append, List.map_append, hinv.sizesEq,
        List.filter_singleton]
      by_cases hpass : snClusterAccept (clusterSignalSum event g.cluster)
          p.sn_cluster = true
      · simp [hpass]
      · rw [Bool.not_eq_true] at hpass
        simp [hpass]
    · show (if snClusterAccept (clusterSignalSum event g.cluster) p.sn_cluster
          then s.numclus + 1 else s.numclus) = _
      rw [List.filter_append, List.length_append, hinv.numclusEq,
        List.filter_singleton]
      by_cases hpass : snClusterAccept (clusterSignalSum event g.cluster)
          p.sn_cluster = true
      · simp [hpass]
      · rw [Bool.not_eq_true] at hpass
        simp [hpass]

theorem foldl_clusterStep_inv (p : ClusterParams) (event SN : List ℚ)
    (pool : List ℕ) :
    ∀ (chs : List ℕ) (s : ClusterState),
      (∀ c ∈ chs, c < p.numchan) → (∀ c ∈ chs, c ∈ pool) →
      ClusterInv p event pool s →
      ClusterInv p event pool (chs.foldl (clusterStep p event SN) s) := by
  intro chs
  induction chs with
  | nil => intro s _ _ h; exact h
  | cons c cs ih =>
    intro s hlt hpool h
    rw [List.foldl_cons]
    exact ih (clusterStep p event SN s c)
      (fun x hx => hlt x (by simp [hx]))
      (fun x hx => hpool x (by simp [hx]))
      (clusterStep_inv p event SN pool s c h (hlt c (by simp))
        (hpool c (by simp)))

theorem clusterInv_init (p : ClusterParams) (event : List ℚ)
    (pool : List ℕ) :
    ClusterInv p event pool
      ⟨List.replicate p.numchan false, [], 0, [], []⟩ := by
  constructor <;> simp

theorem clusteringFull_inv (p : ClusterParams) (event SN : List ℚ)
    (hSN : SN.length = p.numchan) :
    ClusterInv p event (postMaskChannels p event (seedChannels p SN))
      (clusteringFull p event SN) := by
  rw [clusteringFull]
  apply foldl_clusterStep_inv
  · intro c hc
    have := seedChannels_lt (postMask_mem hc)
    omega
  · intro c hc
    exact hc
  · exact clusterInv_init p event _

/-- The embedded acceptance guard agrees with the source's
np.sqrt(|s|) > SN_cluster comparison over the reals. -/
theorem snClusterAccept_correct (s cut : ℚ) :
    snClusterAccept s cut = true ↔ (cut : ℝ) < Real.sqrt |(s : ℝ)| := by
  rw [snClusterAccept]
  split_ifs with hneg
  · constructor
    · intro _
      exact lt_of_lt_of_le (by exact_mod_cast hneg) (Real.sqrt_nonneg _)
    · intro _
      rfl
  · push_neg at hneg
    rw [decide_eq_true_eq, Real.lt_sqrt (by exact_mod_cast hneg)]
    constructor
    · intro h
      exact_mod_cast h
    · intro h
      exact_mod_cast h

/-! C7 — cluster acceptance and consumed channels. -/

/-- C7: a candidate cluster is appended to the returned cluster list,
counted in numclus, and its size recorded, exactly when the acceptance
test sqrt(|sum of signal over members|) > SN_cluster passes (embedded
as snClusterAccept, see snClusterAccept_correct); every candidate's
members — including those of rejected candidates — stay marked used for
the rest of the event, and no two candidates of one event share a
channel, so a rejected candidate's members never seed or join any other
cluster of the same event. -/
theorem clustering_accept_iff_and_consumed (p : ClusterParams)
    (event SN : List ℚ) (hSN : SN.length = p.numchan) :
    (clusteringFull p event SN).clusters =
      ((clusteringFull p event SN).cands.filter
        (fun cd => cd.accepted)).map Candidate.cluster ∧
    (clusteringFull p event SN).sizes =
      ((clusteringFull p event SN).cands.filter
        (fun cd => cd.accepted)).map Candidate.size ∧
    (clusteringFull p event SN).numclus =
      ((clusteringFull p event SN).cands.filter
        (fun cd => cd.accepted)).length ∧
    (∀ cd ∈ (clusteringFull p event SN).cands,
        cd.accepted =
          snClusterAccept (clusterSignalSum event cd.cluster) p.sn_cluster) ∧
    (∀ cd ∈ (clusteringFull p event SN).cands, ∀ x ∈ cd.cluster,
        usedAt (clusteringFull p event SN).used x = true) ∧
    List.Pairwise (fun a b : Candidate => ∀ x ∈ a.cluster, x ∉ b.cluster)
      (clusteringFull p event SN).cands := by
  have h := clusteringFull_inv p event SN hSN
  exact ⟨h.clustersEq, h.sizesEq, h.numclusEq, h.acceptEq, h.memUsed,
    h.disjoint⟩

/-- Witness for clustering_accept_iff_and_consumed on a 2-channel
event with one accepted cluster. -/
theorem clustering_accept_iff_and_consumed_witness :
    ([5, 0] : List ℚ).length =
      (⟨2, 1, 1, 1, 2, false, false⟩ : ClusterParams).numchan ∧
    (clusteringFull ⟨2, 1, 1, 1, 2, false, false⟩ [9, 0] [5, 0]).clusters =
      ((clusteringFull ⟨2, 1, 1, 1, 2, false, false⟩ [9, 0]
        [5, 0]).cands.filter (fun cd => cd.accepted)).map
        Candidate.cluster :=
  ⟨by decide, (clustering_accept_iff_and_consumed
    ⟨2, 1, 1, 1, 2, false, false⟩ [9, 0] [5, 0] (by decide)).1⟩

/-! C9 — automasking under n-in-p polarity. -/

/-- C9: with automasking enabled and n-in-p polarity (positive signals
are the non-physical sign): the returned hit_channels are the seeds
with the positive-signal ones removed, the automasked-hit counter grows
by exactly the number removed, and no channel with positive signal
appears in any returned cluster, whether as seed or as neighbour. -/
theorem clustering_automask_n_in_p (p : ClusterParams) (event SN : List ℚ)
    (hmask : p.masking = true) (hmat : p.material = true)
    (hSN : SN.length = p.numchan) :
    postMaskChannels p event (seedChannels p SN) =
      (seedChannels p SN).filter
        (fun ch => decide (¬ 0 < event.getD ch 0)) ∧
    automaskedCount p event (seedChannels p SN) =
      ((seedChannels p SN).filter
        (fun ch => decide (0 < event.getD ch 0))).length ∧
    ∀ cl ∈ (clusteringFull p event SN).clusters, ∀ x ∈ cl,
      ¬ 0 < event.getD x 0 := by
  have heq : postMaskChannels p event (seedChannels p SN) =
      (seedChannels p SN).filter
        (fun ch => decide (¬ 0 < event.getD ch 0)) := by
    simp [postMaskChannels, hmask, hmat]
  refine ⟨heq, by simp [automaskedCount, hmask, hmat], ?_⟩
  intro cl hcl x hx
  have h := clusteringFull_inv p event SN hSN
  rw [h.clustersEq] at hcl
  obtain ⟨cd, hcdf, rfl⟩ := List.mem_map.mp hcl
  have hcd : cd ∈ (clusteringFull p event SN).cands :=
    (List.mem_filter.mp hcdf).1
  rcases h.memPool cd hcd x hx with hp | hv
  · rw [heq] at hp
    have := (List.mem_filter.mp hp).2
    simpa using this
  · have hneg : event.getD x 0 < 0 := by
      simpa [validCh, hmask, hmat] using hv
    exact fun hcon => lt_asymm hneg hcon

/-- Witness for clustering_automask_n_in_p: the positive-signal seed
channel 0 is removed from the seed list. -/
theorem clustering_automask_n_in_p_witness :
    (⟨2, 1, 1, 1, 2, true, true⟩ : ClusterParams).masking = true ∧
    postMaskChannels ⟨2, 1, 1, 1, 2, true, true⟩ [3, -3]
        (seedChannels ⟨2, 1, 1, 1, 2, true, true⟩ [5, 5]) =
      (seedChannels ⟨2, 1, 1, 1, 2, true, true⟩ [5, 5]).filter
        (fun ch => decide (¬ 0 < ([3, -3] : List ℚ).getD ch 0)) :=
  ⟨rfl, (clustering_automask_n_in_p ⟨2, 1, 1, 1, 2, true, true⟩
    [3, -3] [5, 5] rfl rfl (by decide)).1⟩

/-! C10 — cluster sizes. -/

/-- C10: every returned cluster consists of distinct channels and has
size between 1 and 2*floor(max_clustersize/2)+1; and with the even
max_clustersize 4 there is a run whose returned cluster has
5 = max_clustersize + 1 channels, exceeding the configured maximum. -/
theorem clustering_cluster_size_bounds :
    (∀ (p : ClusterParams) (event SN : List ℚ), SN.length = p.numchan →
        ∀ cl ∈ (clusteringFull p event SN).clusters,
          cl.Nodup ∧ 1 ≤ cl.length ∧
            cl.length ≤ 2 * (p.max_clustersize / 2) + 1) ∧
    (clusteringFull ⟨7, 1, 1 / 2, 1, 4, false, false⟩
        [-1, -1, -1, -1, -1, -1, -1]
        [0, 7 / 10, 7 / 10, 10, 7 / 10, 7 / 10, 0]).clusters.map
      List.length = [4 + 1] := by
  constructor
  · intro p event SN hSN cl hcl
    have h := clusteringFull_inv p event SN hSN
    rw [h.clustersEq] at hcl
    obtain ⟨cd, hcdf, rfl⟩ := List.mem_map.mp hcl
    have hcd := (List.mem_filter.mp hcdf).1
    exact ⟨h.nodup cd hcd, h.lower cd hcd, h.upper cd hcd⟩
  · decide

/-- Witness for the universal part of clustering_cluster_size_bounds at
a concrete accepted cluster. -/
theorem clustering_cluster_size_bounds_witness :
    ([5, 0] : List ℚ).length =
      (⟨2, 1, 1, 1, 2, false, false⟩ : ClusterParams).numchan ∧
    (([0] : List ℕ).Nodup ∧ 1 ≤ ([0] : List ℕ).length ∧
      ([0] : List ℕ).length ≤ 2 *
        ((⟨2, 1, 1, 1, 2, false, false⟩ : ClusterParams).max_clustersize / 2)
          + 1) :=
  ⟨by decide, clustering_cluster_size_bounds.1
    ⟨2, 1, 1, 1, 2, false, false⟩ [9, 0] [5, 0] (by decide) [0] (by decide)⟩

end Alibava
